import Mathlib

/-!
Verification of the proc-macro server bridge
(`compiler/rustc_expand/src/proc_macro_server.rs`): a shallow embedding of
the token bridge, literal codec, span service and server facade, together
with theorems settling the specification's claims.

Conventions of the embedding:
* `Symbol`s and source text are `List Char` (the code is byte-oriented but
  all positions relevant to the claims are character positions).
* machine integers (`u32`, `usize`) are `Nat` with explicit bounds
  (`u32Max`, `usizeMax`) where the code checks for overflow;
* Rust `panic!`/`unreachable!` paths are `Option.none` results;
* external collaborators that live outside the translated file
  (NFC normalization, identifier lexing, `from_nonterminal_ast`, the
  pretty-printing compatibility hack) are fields of an `Externals` record
  passed explicitly.
-/

namespace PMS

/-- Symbols and source fragments are character lists. -/
abbrev Sym := List Char

/-- `rustc_ast::token::LitKind`. -/
inductive LitKind where
  | bool | byte | char | str | strRaw (n : Nat) | byteStr | byteStrRaw (n : Nat)
  | integer | float | err
  deriving DecidableEq, Repr

/-- `rustc_ast::token::Lit`: kind, symbol text, optional suffix. -/
structure Lit where
  kind : LitKind
  symbol : Sym
  suffix : Option Sym
  deriving DecidableEq, Repr

/-- `rustc_ast::tokenstream::Spacing`. -/
inductive Spacing where
  | alone | joint
  deriving DecidableEq, Repr

/-- `spacing == Joint` as a boolean. -/
def Spacing.isJoint : Spacing → Bool
  | .joint => true
  | .alone => false

/-- `rustc_span::Span`: byte range plus hygiene context. -/
structure Span where
  lo : Nat
  hi : Nat
  ctxt : Nat
  deriving DecidableEq, Repr

/-- `Span::with_ctxt`. -/
def Span.withCtxt (s : Span) (c : Nat) : Span := { s with ctxt := c }

/-- `rustc_ast::tokenstream::DelimSpan` (open and close spans). -/
structure DelimSpan where
  openSp : Span
  closeSp : Span
  deriving DecidableEq, Repr

/-- `DelimSpan::from_single`. -/
def DelimSpan.fromSingle (s : Span) : DelimSpan := ⟨s, s⟩

/-- `rustc_ast::token::Delimiter` (the internal delimiter). -/
inductive IDelim where
  | parenthesis | brace | bracket | invisible
  deriving DecidableEq, Repr

/-- `proc_macro::Delimiter` (the client delimiter). -/
inductive CDelim where
  | parenthesis | brace | bracket | none
  deriving DecidableEq, Repr

/-- `impl FromInternal<token::Delimiter> for Delimiter`. -/
def CDelim.fromInternal : IDelim → CDelim
  | .parenthesis => .parenthesis
  | .brace => .brace
  | .bracket => .bracket
  | .invisible => .none

/-- `impl ToInternal<token::Delimiter> for Delimiter`. -/
def CDelim.toInternal : CDelim → IDelim
  | .parenthesis => .parenthesis
  | .brace => .brace
  | .bracket => .bracket
  | .none => .invisible

/-- `rustc_ast::token::BinOpToken`. -/
inductive BinOpToken where
  | plus | minus | star | slash | percent | caret | and | or | shl | shr
  deriving DecidableEq, Repr

/-- `rustc_ast::AttrStyle`. -/
inductive AttrStyle where
  | outer | inner
  deriving DecidableEq, Repr

/-- `rustc_ast::token::CommentKind`. -/
inductive CommentKind where
  | line | block
  deriving DecidableEq, Repr

/-- A nonterminal (`token::Nonterminal`).  `ntIdent` mirrors `NtIdent`;
every other nonterminal is opaque to the bridge (`ntOther`), identified by
a tag; its token stream and the pretty-printing compatibility verdict are
supplied by the `Externals` record. -/
inductive Nt where
  | ntIdent (name : Sym) (isRaw : Bool) (span : Span)
  | ntOther (tag : Nat)
  deriving DecidableEq, Repr

/-- `rustc_ast::token::TokenKind` (the kinds reachable inside a token
stream; `OpenDelim`/`CloseDelim`/`Eof` never occur inside a
`TokenTree::Token` and are declared `unreachable!` by the code). -/
inductive TokenKind where
  | eq | lt | le | eqEq | ne | ge | gt | andAnd | orOr | not | tilde
  | binOp (b : BinOpToken)
  | binOpEq (b : BinOpToken)
  | at | dot | dotDot | dotDotDot | dotDotEq | comma | semi | colon | modSep
  | rArrow | lArrow | fatArrow | pound | dollar | question | singleQuote
  | ident (name : Sym) (isRaw : Bool)
  | lifetime (name : Sym)
  | lit (l : Lit)
  | docComment (ck : CommentKind) (style : AttrStyle) (data : Sym)
  | interpolated (nt : Nt)
  deriving DecidableEq, Repr

/-- `rustc_ast::tokenstream::TokenTree`; a stream is a list of trees with
spacing (`TreeAndSpacing`). -/
inductive ITree where
  | token (kind : TokenKind) (span : Span)
  | delimited (dspan : DelimSpan) (delim : IDelim) (tts : List (ITree × Spacing))

/-- An internal token stream: `tokenstream::TokenStream`. -/
abbrev TokenStream := List (ITree × Spacing)

/-- Server-side `Group` (client-visible group node). -/
structure Group where
  delimiter : CDelim
  stream : TokenStream
  dspan : DelimSpan
  flatten : Bool

/-- Server-side `Ident` (client-visible identifier node). -/
structure Ident where
  sym : Sym
  isRaw : Bool
  span : Span

/-- Server-side `Literal` (client-visible literal node). -/
structure Literal where
  lit : Lit
  span : Span
  deriving DecidableEq, Repr

/-- `pm::bridge::Punct`. -/
structure Punct where
  ch : Char
  joint : Bool
  span : Span

/-- Client token-tree: `TokenTree<Span, Group, Ident, Literal>`. -/
inductive CTree where
  | group (g : Group)
  | ident (i : Ident)
  | punct (p : Punct)
  | literal (l : Literal)

/-- External collaborators used by the bridge but defined outside the
translated file: `rustc_parse::lexer::nfc_normalize`,
`rustc_lexer::is_ident`, `Symbol::can_be_raw`,
`TokenStream::from_nonterminal_ast`, and
`nt_pretty_printing_compatibility_hack`. -/
structure Externals where
  nfc : Sym → Sym
  identOk : Sym → Bool
  canBeRaw : Sym → Bool
  ntStream : Nt → TokenStream
  ntHack : Nt → Bool

/-- `kw::DollarCrate`. -/
def dollarCrate : Sym := ['$', 'c', 'r', 'a', 't', 'e']

/-- `sym::doc`. -/
def docSym : Sym := ['d', 'o', 'c']

/-- `Ident::new` (server-side): NFC-normalize, validate the text as an
identifier, validate raw-identifier eligibility.  The two `panic!` paths
are `none`. -/
def Ident.new (ext : Externals) (sym : Sym) (isRaw : Bool) (span : Span) : Option Ident :=
  let sym := ext.nfc sym
  if ¬ ext.identOk sym then none
  else if isRaw ∧ ¬ ext.canBeRaw sym then none
  else some ⟨sym, isRaw, span⟩

/-- `Ident::dollar_crate`. -/
def Ident.dollarCrateIdent (span : Span) : Ident := ⟨dollarCrate, false, span⟩

/-- Modelled from the spec: `char::escape_debug` from the Rust standard
library (not part of this repository) — control characters, quotes and
backslashes are escaped, other printable characters pass through
unchanged. -/
def escapeDebug (c : Char) : List Char :=
  if c = '\t' then ['\\', 't']
  else if c = '\n' then ['\\', 'n']
  else if c = '\r' then ['\\', 'r']
  else if c = '\\' then ['\\', '\\']
  else if c = '\'' then ['\\', '\'']
  else if c = '"' then ['\\', '"']
  else if c.val < 32 then
    '\\' :: 'u' :: Char.ofNat 123 :: (Nat.toDigits 16 c.toNat ++ [Char.ofNat 125])
  else [c]

/-- One-character operator emission: `op!($a)`. -/
def op1 (span : Span) (joint : Bool) (a : Char) : List CTree :=
  [.punct ⟨a, joint, span⟩]

/-- Two-character operator emission: `op!($a, $b)` (the second character is
pushed onto the pending stack, so it is emitted after the first; the first
is forced `joint`). -/
def op2 (span : Span) (joint : Bool) (a b : Char) : List CTree :=
  [.punct ⟨a, true, span⟩, .punct ⟨b, joint, span⟩]

/-- Three-character operator emission: `op!($a, $b, $c)`. -/
def op3 (span : Span) (joint : Bool) (a b c : Char) : List CTree :=
  [.punct ⟨a, true, span⟩, .punct ⟨b, true, span⟩, .punct ⟨c, joint, span⟩]

/-- The doc-comment attribute body: the internal stream
`doc = "<escaped>"` (three tokens, each at `span`, collected `Alone`). -/
def docCommentStream (data : Sym) (span : Span) : TokenStream :=
  [(.token (.ident docSym false) span, .alone),
   (.token .eq span, .alone),
   (.token (.lit ⟨.str, data.flatMap escapeDebug, none⟩) span, .alone)]

/-- `TokenTree::from_internal` on one `TreeAndSpacing`.  The returned list
is the emission order: the function's return value first, then the trees it
pushed onto the auxiliary `stack` in the order `into_trees` pops them
(last push first).  `none` is the identifier-validation `panic!`. -/
def fromInternal (ext : Externals) (tree : ITree) (spacing : Spacing) : Option (List CTree) :=
  let joint := spacing.isJoint
  match tree with
  | .delimited dspan delim tts =>
      some [.group ⟨CDelim.fromInternal delim, tts, dspan, false⟩]
  | .token kind span =>
    match kind with
    | .eq => some (op1 span joint '=')
    | .lt => some (op1 span joint '<')
    | .le => some (op2 span joint '<' '=')
    | .eqEq => some (op2 span joint '=' '=')
    | .ne => some (op2 span joint '!' '=')
    | .ge => some (op2 span joint '>' '=')
    | .gt => some (op1 span joint '>')
    | .andAnd => some (op2 span joint '&' '&')
    | .orOr => some (op2 span joint '|' '|')
    | .not => some (op1 span joint '!')
    | .tilde => some (op1 span joint '~')
    | .binOp .plus => some (op1 span joint '+')
    | .binOp .minus => some (op1 span joint '-')
    | .binOp .star => some (op1 span joint '*')
    | .binOp .slash => some (op1 span joint '/')
    | .binOp .percent => some (op1 span joint '%')
    | .binOp .caret => some (op1 span joint '^')
    | .binOp .and => some (op1 span joint '&')
    | .binOp .or => some (op1 span joint '|')
    | .binOp .shl => some (op2 span joint '<' '<')
    | .binOp .shr => some (op2 span joint '>' '>')
    | .binOpEq .plus => some (op2 span joint '+' '=')
    | .binOpEq .minus => some (op2 span joint '-' '=')
    | .binOpEq .star => some (op2 span joint '*' '=')
    | .binOpEq .slash => some (op2 span joint '/' '=')
    | .binOpEq .percent => some (op2 span joint '%' '=')
    | .binOpEq .caret => some (op2 span joint '^' '=')
    | .binOpEq .and => some (op2 span joint '&' '=')
    | .binOpEq .or => some (op2 span joint '|' '=')
    | .binOpEq .shl => some (op3 span joint '<' '<' '=')
    | .binOpEq .shr => some (op3 span joint '>' '>' '=')
    | .at => some (op1 span joint '@')
    | .dot => some (op1 span joint '.')
    | .dotDot => some (op2 span joint '.' '.')
    | .dotDotDot => some (op3 span joint '.' '.' '.')
    | .dotDotEq => some (op3 span joint '.' '.' '=')
    | .comma => some (op1 span joint ',')
    | .semi => some (op1 span joint ';')
    | .colon => some (op1 span joint ':')
    | .modSep => some (op2 span joint ':' ':')
    | .rArrow => some (op2 span joint '-' '>')
    | .lArrow => some (op2 span joint '<' '-')
    | .fatArrow => some (op2 span joint '=' '>')
    | .pound => some (op1 span joint '#')
    | .dollar => some (op1 span joint '$')
    | .question => some (op1 span joint '?')
    | .singleQuote => some (op1 span joint '\'')
    | .ident name isRaw =>
        if name = dollarCrate ∧ isRaw = false then
          some [.ident (Ident.dollarCrateIdent span)]
        else
          (Ident.new ext name isRaw span).map (fun i => [.ident i])
    | .lifetime name =>
        (Ident.new ext (name.dropWhile (· = '\'')) false span).map
          (fun i => [.punct ⟨'\'', true, span⟩, .ident i])
    | .lit l => some [.literal ⟨l, span⟩]
    | .docComment _ style data =>
        some (.punct ⟨'#', false, span⟩ ::
          ((if style = .inner then [CTree.punct ⟨'!', false, span⟩] else []) ++
           [.group ⟨.bracket, docCommentStream data span, DelimSpan.fromSingle span, false⟩]))
    | .interpolated nt =>
      match nt with
      | .ntIdent name isRaw ispan =>
          (Ident.new ext name isRaw ispan).map (fun i => [.ident i])
      | .ntOther tag =>
          some [.group ⟨.none, ext.ntStream (.ntOther tag), DelimSpan.fromSingle span,
                        ext.ntHack (.ntOther tag)⟩]

/-- The single-character half of `to_internal`'s `match ch` table; `none`
is the `unreachable!` arm. -/
def charToKind : Char → Option TokenKind
  | '=' => some .eq
  | '<' => some .lt
  | '>' => some .gt
  | '!' => some .not
  | '~' => some .tilde
  | '+' => some (.binOp .plus)
  | '-' => some (.binOp .minus)
  | '*' => some (.binOp .star)
  | '/' => some (.binOp .slash)
  | '%' => some (.binOp .percent)
  | '^' => some (.binOp .caret)
  | '&' => some (.binOp .and)
  | '|' => some (.binOp .or)
  | '@' => some .at
  | '.' => some .dot
  | ',' => some .comma
  | ';' => some .semi
  | ':' => some .colon
  | '#' => some .pound
  | '$' => some .dollar
  | '?' => some .question
  | '\'' => some .singleQuote
  | _ => none

/-- `TokenTree::to_internal`: one client tree to an internal stream
fragment.  Single-tree results (`.into()`) and collected pairs carry
`Alone` spacing; only the punct path restores the stored spacing. -/
def toInternal (tree : CTree) : Option TokenStream :=
  match tree with
  | .group ⟨delimiter, stream, dspan, _⟩ =>
      some [(.delimited dspan delimiter.toInternal stream, .alone)]
  | .ident ⟨sym, isRaw, span⟩ =>
      some [(.token (.ident sym isRaw) span, .alone)]
  | .literal ⟨⟨kind, symbol, suffix⟩, span⟩ =>
      if kind = .integer ∧ symbol.head? = some '-' then
        some [(.token (.binOp .minus) span, .alone),
              (.token (.lit ⟨.integer, symbol.drop 1, suffix⟩) span, .alone)]
      else if kind = .float ∧ symbol.head? = some '-' then
        some [(.token (.binOp .minus) span, .alone),
              (.token (.lit ⟨.float, symbol.drop 1, suffix⟩) span, .alone)]
      else
        some [(.token (.lit ⟨kind, symbol, suffix⟩) span, .alone)]
  | .punct ⟨ch, joint, span⟩ =>
      (charToKind ch).map
        (fun k => [(.token k span, if joint then Spacing.joint else Spacing.alone)])

/-- Internal-to-client-to-internal round trip of a token that converts to
a single client tree. -/
def roundTrip (ext : Externals) (tree : ITree) (spacing : Spacing) : Option TokenStream :=
  (fromInternal ext tree spacing).bind
    (fun ts => match ts with
      | [t] => toInternal t
      | _ => none)

/-- The `(character, joint)` data of an emission, defined only when every
emitted tree is a `Punct` node. -/
def emissionData (o : Option (List CTree)) : Option (List (Char × Bool)) :=
  o.bind (List.mapM (fun t =>
    match t with
    | .punct p => some (p.ch, p.joint)
    | _ => Option.none))

/-- The `flatten` flags of the groups among a list of client trees. -/
def groupFlattens (l : List CTree) : List Bool :=
  l.filterMap (fun t =>
    match t with
    | .group g => some g.flatten
    | _ => Option.none)

/-! ## Literal codec: re-lexing a standalone source fragment

`server::Literal::from_str` delegates lexing/parsing to `rustc_parse`
(outside the translated file).  Modelled from the spec: "re-lex the given
text as if it were a standalone source fragment" — the model below lexes
whitespace, block comments, a minus token, integer/float literals with an
optional suffix, character literals and string literals, each carrying its
character range, exactly as the claims exercise it. -/

/-- Token classification seen by `from_str`'s parser probe. -/
inductive PTok where
  | minus
  | lit (l : Lit)
  | other
  deriving DecidableEq, Repr

/-- A lexed token with its character range `[lo, hi)` in the input. -/
structure Spanned where
  tok : PTok
  lo : Nat
  hi : Nat
  deriving DecidableEq, Repr

/-- Suffix characters after a numeric literal (identifier continuation). -/
def isSuffixChar (c : Char) : Bool := c.isAlpha || c.isDigit || c = '_'

/-- Scan a numeric literal whose first digit `c` has been consumed:
returns the literal, the remaining input, and the number of characters
consumed (symbol plus suffix). -/
def scanNumber (c : Char) (cs : List Char) : Lit × List Char × Nat :=
  let ds := cs.takeWhile Char.isDigit
  let rest1 := cs.dropWhile Char.isDigit
  let mkInt : Lit × List Char × Nat :=
    let sym := c :: ds
    let suf := rest1.takeWhile isSuffixChar
    let rest := rest1.dropWhile isSuffixChar
    (⟨.integer, sym, if suf.isEmpty then none else some suf⟩, rest,
      sym.length + suf.length)
  match rest1 with
  | '.' :: d :: rest2 =>
    if d.isDigit then
      let ds2 := (d :: rest2).takeWhile Char.isDigit
      let rest3 := (d :: rest2).dropWhile Char.isDigit
      let sym := (c :: ds) ++ '.' :: ds2
      let suf := rest3.takeWhile isSuffixChar
      let rest := rest3.dropWhile isSuffixChar
      (⟨.float, sym, if suf.isEmpty then none else some suf⟩, rest,
        sym.length + suf.length)
    else mkInt
  | _ => mkInt

/-- Skip a block comment body (input starts after the opening pair):
returns the remainder after the closing `*/` and the number of characters
consumed (including the closing pair); `none` if unterminated. -/
def dropComment : Nat → List Char → Option (List Char × Nat)
  | 0, _ => none
  | _ + 1, '*' :: '/' :: rest => some (rest, 2)
  | f + 1, _ :: rest => (dropComment f rest).map (fun p => (p.1, p.2 + 1))
  | _ + 1, [] => none

/-- Scan a string-literal body (input starts after the opening quote):
returns the content, the remainder after the closing quote, and the
content length; `none` if unterminated. -/
def scanString : Nat → List Char → Option (List Char × List Char × Nat)
  | 0, _ => none
  | _ + 1, '"' :: rest => some ([], rest, 0)
  | f + 1, c :: rest =>
      (scanString f rest).map (fun p => (c :: p.1, p.2.1, p.2.2 + 1))
  | _ + 1, [] => none

/-- Fuel-driven lexer: one token (or skipped trivia) per step. -/
def lexFuel : Nat → List Char → Nat → List Spanned
  | 0, _, _ => []
  | _ + 1, [], _ => []
  | f + 1, c :: cs, pos =>
    if c.isWhitespace then lexFuel f cs (pos + 1)
    else if c = '/' then
      match cs with
      | '*' :: cs2 =>
        match dropComment f cs2 with
        | some (rest, n) => lexFuel f rest (pos + 2 + n)
        | none => []
      | _ => ⟨.other, pos, pos + 1⟩ :: lexFuel f cs (pos + 1)
    else if c = '-' then ⟨.minus, pos, pos + 1⟩ :: lexFuel f cs (pos + 1)
    else if c.isDigit then
      let r := scanNumber c cs
      ⟨.lit r.1, pos, pos + r.2.2⟩ :: lexFuel f r.2.1 (pos + r.2.2)
    else if c = '\'' then
      match cs with
      | c2 :: '\'' :: cs2 =>
          ⟨.lit ⟨.char, [c2], none⟩, pos, pos + 3⟩ :: lexFuel f cs2 (pos + 3)
      | _ => ⟨.other, pos, pos + 1⟩ :: lexFuel f cs (pos + 1)
    else if c = '"' then
      match scanString f cs with
      | some (content, rest, n) =>
          ⟨.lit ⟨.str, content, none⟩, pos, pos + 2 + n⟩ :: lexFuel f rest (pos + 2 + n)
      | none => []
    else ⟨.other, pos, pos + 1⟩ :: lexFuel f cs (pos + 1)

/-- Lex a standalone source fragment. -/
def lex (s : List Char) : List Spanned := lexFuel (s.length + 1) s 0

/-- `server::Literal::from_str`: probe the lexed fragment with the same
steps as the code — read the first token's span, `eat` a minus, require
the current token to be a literal, require the literal (with the possible
minus) to cover exactly the whole input, require minus-adjacency and a
numeric kind when a minus was eaten, and synthesize the minus into the
payload (`&s[..1 + lit.symbol.len()]`).  On success the literal carries
the call-site span. -/
def fromStrLit (s : List Char) : Option Lit :=
  match lex s with
  | [] => none
  | t1 :: rest =>
    if t1.tok = PTok.minus then
      match rest with
      | [] => none
      | t2 :: _ =>
        match t2.tok with
        | .lit l =>
          if t2.hi - t1.lo ≠ s.length then none
          else if t1.hi ≠ t2.lo then none
          else
            match l.kind with
            | .integer => some ⟨.integer, s.take (1 + l.symbol.length), l.suffix⟩
            | .float => some ⟨.float, s.take (1 + l.symbol.length), l.suffix⟩
            | _ => none
        | _ => none
    else
      match t1.tok with
      | .lit l => if t1.hi - t1.lo ≠ s.length then none else some l
      | _ => none

/-- `server::Literal::from_str` proper: the unique success path wraps the
parsed literal with the ambient call-site span
(`Ok(Literal { lit, span: self.call_site })`). -/
def fromStr (callSite : Span) (s : List Char) : Option Literal :=
  (fromStrLit s).map (fun l => ⟨l, callSite⟩)

/-! ## Span service -/

/-- `u32::MAX`. -/
def u32Max : Nat := 4294967295

/-- `usize::MAX`. -/
def usizeMax : Nat := 18446744073709551615

/-- `std::ops::Bound<usize>`. -/
inductive Bnd where
  | included (n : Nat)
  | excluded (n : Nat)
  | unbounded
  deriving DecidableEq, Repr

/-- Resolution of the start bound in `subspan` (`lo.checked_add(1)?`
fails exactly at `usize::MAX`). -/
def resolveStart : Bnd → Option Nat
  | .included lo => some lo
  | .excluded lo => if lo = usizeMax then none else some (lo + 1)
  | .unbounded => some 0

/-- Resolution of the end bound in `subspan` against the literal's
textual length. -/
def resolveEnd (length : Nat) : Bnd → Option Nat
  | .included hi => if hi = usizeMax then none else some (hi + 1)
  | .excluded hi => some hi
  | .unbounded => some length

/-- `server::Literal::subspan`: narrow a literal's span to a character
range given by two bounds; all invalid combinations yield `none`. -/
def subspan (literal : Literal) (b1 b2 : Bnd) : Option Span :=
  let span := literal.span
  let length := span.hi - span.lo
  match resolveStart b1 with
  | none => none
  | some start =>
    match resolveEnd length b2 with
    | none => none
    | some stop =>
      if start > u32Max ∨ stop > u32Max ∨
         u32Max - start < span.lo ∨ u32Max - stop < span.lo ∨
         start ≥ stop ∨ stop > length then none
      else some ⟨span.lo + start, span.lo + stop, span.ctxt⟩

/-- Modelled from the spec: `rustc_span::Span::to` (outside the translated
file) — "the span covering from `a`'s start to `b`'s end". -/
def Span.to (a b : Span) : Span := ⟨a.lo, b.hi, a.ctxt⟩

/-- `server::Span::join`.  The external source map is modelled as a map
from a byte position to the identity of the file containing it
(`lookup_char_pos(..).file.name`). -/
def join (sm : Nat → Nat) (first second : Span) : Option Span :=
  if sm first.lo ≠ sm second.lo then none
  else some (first.to second)

/-- The per-invocation state used by `recover_proc_macro_span`: the
`rebased_spans` memoization cache (an association list standing for the
`FxHashMap`), the definition-site span and the macro's crate number. -/
structure RecoverState where
  rebased : List (Nat × Span)
  defSite : Span
  krate : Nat

/-- `server::Span::recover_proc_macro_span`.  The external resolver
(`get_proc_macro_quoted_span`, keyed by crate and id) is a parameter; on a
cache miss the resolved span's hygiene context is rebound to the
definition-site context and the result is memoized. -/
def recoverProcMacroSpan (resolver : Nat → Nat → Span) (st : RecoverState)
    (id : Nat) : Span × RecoverState :=
  match st.rebased.lookup id with
  | some sp => (sp, st)
  | none =>
    let sp := (resolver st.krate id).withCtxt st.defSite.ctxt
    (sp, { st with rebased := (id, sp) :: st.rebased })

/-! ## `expand_expr` -/

/-- `rustc_ast::UnOp`. -/
inductive UnOp where
  | deref | not | neg
  deriving DecidableEq, Repr

/-- `rustc_ast::Lit` as seen by `expand_expr`: its token form and span. -/
structure AstLit where
  token : Lit
  span : Span
  deriving DecidableEq, Repr

/-- The expression shapes `expand_expr` distinguishes: a literal
expression, a unary expression, or any other shape. -/
inductive Expr where
  | lit (l : AstLit) (span : Span)
  | unary (op : UnOp) (e : Expr) (span : Span)
  | other (span : Span)

/-- Shapes accepted by `expand_expr`: literals and negated literals. -/
def isLitOrNegLit : Expr → Bool
  | .lit .. => true
  | .unary .neg (.lit ..) _ => true
  | _ => false

/-- `server::TokenStream::expand_expr`.  Parsing the stream into an
expression (`stream_to_parser` / `parse_expr` / the EOF check) and the
eager expansion (`fully_expand_fragment`) are external; they are the
`parse` and `expand` parameters.  The result pairs the outcome with the
list of emitted diagnostics (a parse error is emitted, then reported as
`Err(())`). -/
def expandExpr (parse : TokenStream → Except Nat Expr) (expand : Expr → Expr)
    (stream : TokenStream) : Except Unit TokenStream × List Nat :=
  match parse stream with
  | .error d => (.error (), [d])
  | .ok e0 =>
    match expand e0 with
    | .lit l _ => (.ok [(.token (.lit l.token) l.span, .alone)], [])
    | .unary .neg e _ =>
      match e with
      | .lit l espan =>
        match l.token.kind with
        | .integer =>
            (.ok [(.token (.binOp .minus) espan, .alone),
                  (.token (.lit l.token) l.span, .alone)], [])
        | .float =>
            (.ok [(.token (.binOp .minus) espan, .alone),
                  (.token (.lit l.token) l.span, .alone)], [])
        | _ => (.error (), [])
      | _ => (.error (), [])
    | _ => (.error (), [])

/-! ## Server facade constructors -/

/-- The ambient spans of one macro invocation (the relevant part of the
`Rustc` facade for the constructor claims). -/
structure Facade where
  defSite : Span
  callSite : Span
  mixedSite : Span

/-- `Rustc::lit`: build a literal carrying the call-site span. -/
def Facade.lit (st : Facade) (kind : LitKind) (symbol : Sym)
    (suffix : Option Sym) : Literal :=
  ⟨⟨kind, symbol, suffix⟩, st.callSite⟩

/-- `server::Group::new`: ambient call-site span, never flattened. -/
def Facade.groupNew (st : Facade) (delimiter : CDelim)
    (stream : Option TokenStream) : Group :=
  ⟨delimiter, stream.getD [], DelimSpan.fromSingle st.callSite, false⟩

/-- `server::Literal::integer`. -/
def Facade.integer (st : Facade) (n : Sym) : Literal := st.lit .integer n none

/-- `server::Literal::typed_integer`. -/
def Facade.typedInteger (st : Facade) (n kind : Sym) : Literal :=
  st.lit .integer n (some kind)

/-- `server::Literal::float`. -/
def Facade.float (st : Facade) (n : Sym) : Literal := st.lit .float n none

/-- `server::Literal::f32`. -/
def Facade.f32 (st : Facade) (n : Sym) : Literal :=
  st.lit .float n (some ['f', '3', '2'])

/-- `server::Literal::f64`. -/
def Facade.f64 (st : Facade) (n : Sym) : Literal :=
  st.lit .float n (some ['f', '6', '4'])

/-- Modelled from the spec: the `str` debug-escaping used by
`Literal::string` (`format!("{:?}", string)` with the quotes stripped) —
as `escapeDebug` but single quotes pass through unchanged. -/
def strEscapeDebug (c : Char) : List Char :=
  if c = '\'' then [c] else escapeDebug c

/-- Modelled from the spec: the `char` debug-escaping used by
`Literal::character` — as `escapeDebug` but double quotes pass through
unchanged. -/
def charEscapeDebug (c : Char) : List Char :=
  if c = '"' then [c] else escapeDebug c

/-- `server::Literal::string`. -/
def Facade.string (st : Facade) (s : Sym) : Literal :=
  st.lit .str (s.flatMap strEscapeDebug) none

/-- `server::Literal::character`. -/
def Facade.character (st : Facade) (c : Char) : Literal :=
  st.lit .char (charEscapeDebug c) none

/-- Modelled from the spec: `std::ascii::escape_default` for one byte. -/
def asciiEscapeDefault (b : Nat) : List Char :=
  if b = 9 then ['\\', 't']
  else if b = 10 then ['\\', 'n']
  else if b = 13 then ['\\', 'r']
  else if b = 92 then ['\\', '\\']
  else if b = 39 then ['\\', '\'']
  else if b = 34 then ['\\', '"']
  else if 32 ≤ b ∧ b ≤ 126 then [Char.ofNat b]
  else ['\\', 'x', Nat.digitChar (b / 16), Nat.digitChar (b % 16)]

/-- `server::Literal::byte_string`. -/
def Facade.byteString (st : Facade) (bytes : List Nat) : Literal :=
  st.lit .byteStr (bytes.flatMap asciiEscapeDefault) none

/-! ## Enumerations of operator kinds used by the round-trip claims -/

/-- The internal token kinds that `from_internal` maps to a single
one-character `Punct` node. -/
def singleCharOpKinds : List TokenKind :=
  [.eq, .lt, .gt, .not, .tilde,
   .binOp .plus, .binOp .minus, .binOp .star, .binOp .slash,
   .binOp .percent, .binOp .caret, .binOp .and, .binOp .or,
   .at, .dot, .comma, .semi, .colon, .pound, .dollar, .question, .singleQuote]

/-- The multi-character internal operator kinds paired with their source
text. -/
def multiCharOps : List (TokenKind × List Char) :=
  [(.le, ['<', '=']), (.eqEq, ['=', '=']), (.ne, ['!', '=']), (.ge, ['>', '=']),
   (.andAnd, ['&', '&']), (.orOr, ['|', '|']),
   (.binOp .shl, ['<', '<']), (.binOp .shr, ['>', '>']),
   (.binOpEq .plus, ['+', '=']), (.binOpEq .minus, ['-', '=']),
   (.binOpEq .star, ['*', '=']), (.binOpEq .slash, ['/', '=']),
   (.binOpEq .percent, ['%', '=']), (.binOpEq .caret, ['^', '=']),
   (.binOpEq .and, ['&', '=']), (.binOpEq .or, ['|', '=']),
   (.binOpEq .shl, ['<', '<', '=']), (.binOpEq .shr, ['>', '>', '=']),
   (.dotDot, ['.', '.']), (.dotDotDot, ['.', '.', '.']), (.dotDotEq, ['.', '.', '=']),
   (.modSep, [':', ':']), (.rArrow, ['-', '>']), (.lArrow, ['<', '-']),
   (.fatArrow, ['=', '>'])]

/-! ## Concrete instances for closed evaluations -/

/-- A concrete `Externals` instance: identity normalization, every text a
valid (raw-eligible) identifier, empty nonterminal streams, no
compatibility hack. -/
def ext0 : Externals :=
  ⟨fun s => s, fun _ => true, fun _ => true, fun _ => [], fun _ => false⟩

/-- A concrete span. -/
def sp0 : Span := ⟨5, 9, 2⟩

/-- A concrete facade instance. -/
def st0 : Facade := ⟨⟨0, 1, 7⟩, ⟨10, 20, 3⟩, ⟨0, 1, 8⟩⟩

/-- The positional soundness facts the literal codec needs about one lexed
token: it lies inside the input at or after the cursor, a minus token is
one character wide and sits on a minus character, and a numeric literal's
symbol is the text at its start position. -/
def TokSound (cs : List Char) (pos : Nat) (t : Spanned) : Prop :=
  pos ≤ t.lo ∧ t.lo ≤ t.hi ∧ t.hi ≤ pos + cs.length ∧
  (t.tok = PTok.minus → t.hi = t.lo + 1 ∧ (cs.drop (t.lo - pos)).head? = some '-') ∧
  (∀ l, t.tok = PTok.lit l → (l.kind = .integer ∨ l.kind = .float) →
    ∃ r, cs.drop (t.lo - pos) = l.symbol ++ r)

/-! ## Theorems -/

/-- C2: for every multi-character internal operator kind, `from_internal`
emits exactly N single-character `Punct` nodes (the returned node followed
by the pending-stack nodes in pop order); the first N−1 are `joint`, the
last carries the original token's spacing, and the characters in emission
order spell the operator's source text. -/
theorem c2_operator_decomposition (ext : Externals) (span : Span)
    (spacing : Spacing) (k : TokenKind) (text : List Char)
    (h : (k, text) ∈ multiCharOps) :
    emissionData (fromInternal ext (.token k span) spacing) =
      some (text.zip (List.replicate (text.length - 1) true ++ [spacing.isJoint])) := by
  fin_cases h <;> cases spacing <;> rfl

/-- Closed witness for C2: the `<=` operator at `Alone` spacing. -/
theorem c2_operator_decomposition_witness :
    emissionData (fromInternal ext0 (.token .le sp0) .alone) =
      some ((['<', '='] : List Char).zip
        (List.replicate ((['<', '='] : List Char).length - 1) true ++
          [Spacing.alone.isJoint])) :=
  c2_operator_decomposition ext0 sp0 .alone .le ['<', '='] (by decide)

/-- C7: `to_internal` on an integer or float client literal whose payload
begins with a minus sign yields exactly two internal tokens — a standalone
minus, then the literal of the same kind and suffix with the minus
removed — both carrying the client literal's span. -/
theorem c7_negative_literal_synthesis (rest : Sym) (suffix : Option Sym)
    (span : Span) :
    toInternal (.literal ⟨⟨.integer, '-' :: rest, suffix⟩, span⟩) =
      some [(.token (.binOp .minus) span, .alone),
            (.token (.lit ⟨.integer, rest, suffix⟩) span, .alone)]
    ∧ toInternal (.literal ⟨⟨.float, '-' :: rest, suffix⟩, span⟩) =
      some [(.token (.binOp .minus) span, .alone),
            (.token (.lit ⟨.float, rest, suffix⟩) span, .alone)] :=
  ⟨rfl, rfl⟩

/-- C8: a doc-comment token decomposes into the client token sequence of
an attribute — a `#` punct, for inner style a further `!` punct, then a
bracket-delimited group whose stream is `doc`, `=`, and a string literal
holding the comment text with every character debug-escaped; for text
whose characters escape to themselves the string is the text itself. -/
theorem c8_doc_comment_decomposition (ext : Externals) (ck : CommentKind)
    (style : AttrStyle) (data : Sym) (span : Span) (spacing : Spacing) :
    (style = .outer →
      fromInternal ext (.token (.docComment ck style data) span) spacing =
        some [.punct ⟨'#', false, span⟩,
              .group ⟨.bracket, docCommentStream data span,
                      DelimSpan.fromSingle span, false⟩])
    ∧ (style = .inner →
      fromInternal ext (.token (.docComment ck style data) span) spacing =
        some [.punct ⟨'#', false, span⟩, .punct ⟨'!', false, span⟩,
              .group ⟨.bracket, docCommentStream data span,
                      DelimSpan.fromSingle span, false⟩])
    ∧ ((∀ c ∈ data, escapeDebug c = [c]) → data.flatMap escapeDebug = data) := by
  refine ⟨fun h => by subst h; rfl, fun h => by subst h; rfl, fun h => ?_⟩
  induction data with
  | nil => rfl
  | cons c cs ih =>
    simp only [List.flatMap_cons]
    rw [h c (by simp), ih (fun x hx => h x (by simp [hx]))]
    rfl

/-- Closed witness for C8: the outer doc comment with text `t` decomposes
to the sequence for `#[doc = "t"]`. -/
theorem c8_doc_comment_decomposition_witness :
    fromInternal ext0 (.token (.docComment .line .outer ['t']) sp0) .alone =
      some [.punct ⟨'#', false, sp0⟩,
            .group ⟨.bracket, docCommentStream ['t'] sp0,
                    DelimSpan.fromSingle sp0, false⟩]
    ∧ (['t'] : Sym).flatMap escapeDebug = ['t'] := by
  have h := c8_doc_comment_decomposition ext0 .line .outer ['t'] sp0 .alone
  exact ⟨h.1 rfl, h.2.2 (by decide)⟩

/-- C5: `join` succeeds exactly when the two spans' start positions
resolve to the same source file, and then covers from the first span's
start to the second's end; different files yield no result. -/
theorem c5_span_join (sm : Nat → Nat) (first second : Span) :
    (sm first.lo = sm second.lo →
      join sm first second = some ⟨first.lo, second.hi, first.ctxt⟩)
    ∧ (sm first.lo ≠ sm second.lo → join sm first second = none)
    ∧ (∀ s, join sm first second = some s →
        sm first.lo = sm second.lo ∧ s.lo = first.lo ∧ s.hi = second.hi) := by
  refine ⟨fun h => ?_, fun h => ?_, fun s hs => ?_⟩
  · simp [join, h, Span.to]
  · simp [join, h]
  · by_cases h : sm first.lo = sm second.lo
    · simp only [join, h, ne_eq, not_true_eq_false, if_false, Option.some.injEq] at hs
      exact ⟨h, by simp [← hs, Span.to], by simp [← hs, Span.to]⟩
    · simp [join, h] at hs

/-- Closed witness for C5: same-file join of two concrete spans. -/
theorem c5_span_join_witness :
    join (fun _ => 0) ⟨1, 2, 0⟩ ⟨4, 6, 1⟩ = some ⟨1, 6, 0⟩ :=
  (c5_span_join (fun _ => 0) ⟨1, 2, 0⟩ ⟨4, 6, 1⟩).1 rfl

/-- C6: within one invocation, recovering the same id twice yields the
identical span both times (the first resolution is memoized in
`rebased_spans`), and a fresh recovery's hygiene context is the
definition-site context. -/
theorem c6_recover_idempotent (resolver : Nat → Nat → Span)
    (st : RecoverState) (id : Nat) :
    (recoverProcMacroSpan resolver
        (recoverProcMacroSpan resolver st id).2 id).1 =
      (recoverProcMacroSpan resolver st id).1
    ∧ (st.rebased.lookup id = none →
        (recoverProcMacroSpan resolver st id).1.ctxt = st.defSite.ctxt) := by
  constructor
  · cases h : st.rebased.lookup id with
    | some sp => simp [recoverProcMacroSpan, h]
    | none => simp [recoverProcMacroSpan, h, List.lookup]
  · intro h
    simp [recoverProcMacroSpan, h, Span.withCtxt]

/-- Closed witness for C6: recovering id 0 twice from an empty cache. -/
theorem c6_recover_idempotent_witness :
    (recoverProcMacroSpan (fun _ _ => ⟨1, 2, 9⟩)
        (recoverProcMacroSpan (fun _ _ => ⟨1, 2, 9⟩) ⟨[], sp0, 0⟩ 0).2 0).1 =
      (recoverProcMacroSpan (fun _ _ => ⟨1, 2, 9⟩) ⟨[], sp0, 0⟩ 0).1
    ∧ (recoverProcMacroSpan (fun _ _ => ⟨1, 2, 9⟩) ⟨[], sp0, 0⟩ 0).1.ctxt =
        (⟨[], sp0, 0⟩ : RecoverState).defSite.ctxt := by
  have h := c6_recover_idempotent (fun _ _ => ⟨1, 2, 9⟩) ⟨[], sp0, 0⟩ 0
  exact ⟨h.1, h.2 rfl⟩

/-- C4: `subspan` is total (it is a Lean function into `Option`), returns
`none` whenever a bound fails to resolve, whenever the resolved offsets
exceed the maximum representable position, would overflow when added to
the span's low position, satisfy `start ≥ end`, or run past the literal's
textual length — and returns `some` of the narrowed span otherwise; in
particular `subspan (Included 0) (Excluded 1)` on a literal of length ≥ 1
is the one-character span at the literal's start. -/
theorem c4_subspan_bounds (literal : Literal) (b1 b2 : Bnd)
    (hwf : literal.span.lo ≤ literal.span.hi)
    (hrep : literal.span.hi ≤ u32Max) :
    (resolveStart b1 = none → subspan literal b1 b2 = none)
    ∧ (resolveEnd (literal.span.hi - literal.span.lo) b2 = none →
        subspan literal b1 b2 = none)
    ∧ (∀ s e, resolveStart b1 = some s →
        resolveEnd (literal.span.hi - literal.span.lo) b2 = some e →
        (s > u32Max ∨ e > u32Max ∨
         u32Max - s < literal.span.lo ∨ u32Max - e < literal.span.lo ∨
         s ≥ e ∨ e > literal.span.hi - literal.span.lo) →
        subspan literal b1 b2 = none)
    ∧ (∀ s e, resolveStart b1 = some s →
        resolveEnd (literal.span.hi - literal.span.lo) b2 = some e →
        ¬ (s > u32Max ∨ e > u32Max ∨
           u32Max - s < literal.span.lo ∨ u32Max - e < literal.span.lo ∨
           s ≥ e ∨ e > literal.span.hi - literal.span.lo) →
        subspan literal b1 b2 =
          some ⟨literal.span.lo + s, literal.span.lo + e, literal.span.ctxt⟩)
    ∧ (1 ≤ literal.span.hi - literal.span.lo →
        subspan literal (.included 0) (.excluded 1) =
          some ⟨literal.span.lo, literal.span.lo + 1, literal.span.ctxt⟩) := by
  refine ⟨fun h => ?_, fun h => ?_, fun s e hs he hbad => ?_,
          fun s e hs he hok => ?_, fun hlen => ?_⟩
  · simp [subspan, h]
  · cases hs : resolveStart b1 with
    | none => simp [subspan, hs]
    | some s => simp [subspan, hs, h]
  · simp [subspan, hs, he, hbad]
  · simp [subspan, hs, he, hok]
  · have hlo : literal.span.lo < literal.span.hi := by omega
    have h1 : ¬ (u32Max - 0 < literal.span.lo) := by omega
    have h2 : ¬ (u32Max - 1 < literal.span.lo) := by
      have : literal.span.lo < u32Max := lt_of_lt_of_le hlo hrep
      omega
    simp only [subspan, resolveStart, resolveEnd]
    rw [if_neg (by push_neg; omega)]
    simp

/-- Closed witness for C4: a length-4 literal at positions 5..9 — an
out-of-range end bound yields `none`, and the one-character narrowing
yields the span 5..6. -/
theorem c4_subspan_bounds_witness :
    subspan ⟨⟨.integer, ['1'], none⟩, sp0⟩ (.included 0) (.excluded 7) = none
    ∧ subspan ⟨⟨.integer, ['1'], none⟩, sp0⟩ (.included 0) (.excluded 1) =
        some ⟨5, 6, 2⟩ := by
  have h := c4_subspan_bounds ⟨⟨.integer, ['1'], none⟩, sp0⟩
    (.included 0) (.excluded 7) (by decide) (by decide)
  refine ⟨h.2.2.1 0 7 rfl rfl (by decide), h.2.2.2.2 (by decide)⟩

/-- C9: `expand_expr` never aborts — a parse failure is emitted as a
diagnostic and reported as `Err(())`; after eager expansion the result is
`Ok` only for literal and negated-literal shapes, and every other shape
yields `Err(())` with no diagnostic emitted. -/
theorem c9_expand_expr_shapes (parse : TokenStream → Except Nat Expr)
    (expand : Expr → Expr) (stream : TokenStream) :
    (∀ d, parse stream = .error d →
      expandExpr parse expand stream = (.error (), [d]))
    ∧ (∀ e0, parse stream = .ok e0 →
        (isLitOrNegLit (expand e0) = false →
          expandExpr parse expand stream = (.error (), []))
        ∧ (∀ ts, (expandExpr parse expand stream).1 = .ok ts →
            isLitOrNegLit (expand e0) = true)) := by
  constructor
  · intro d hd
    simp [expandExpr, hd]
  · intro e0 he
    constructor
    · intro hshape
      cases hex : expand e0 with
      | lit l sp => simp [isLitOrNegLit, hex] at hshape
      | other sp => simp [expandExpr, he, hex]
      | unary op e sp =>
        cases op with
        | neg =>
          cases e with
          | lit l lsp => simp [isLitOrNegLit, hex] at hshape
          | unary op2 e2 sp2 => simp [expandExpr, he, hex]
          | other sp2 => simp [expandExpr, he, hex]
        | deref => simp [expandExpr, he, hex]
        | not => simp [expandExpr, he, hex]
    · intro ts hts
      cases hex : expand e0 with
      | lit l sp => simp [isLitOrNegLit]
      | other sp => simp [expandExpr, he, hex] at hts
      | unary op e sp =>
        cases op with
        | neg =>
          cases e with
          | lit l lsp => simp [isLitOrNegLit]
          | unary op2 e2 sp2 => simp [expandExpr, he, hex] at hts
          | other sp2 => simp [expandExpr, he, hex] at hts
        | deref => simp [expandExpr, he, hex] at hts
        | not => simp [expandExpr, he, hex] at hts

/-- Closed witness for C9: a failing parse emits its diagnostic and
reports the expected failure; a parse producing a non-literal shape
reports the expected failure silently. -/
theorem c9_expand_expr_shapes_witness :
    expandExpr (fun _ => .error 7) (fun e => e) [] = (.error (), [7])
    ∧ expandExpr (fun _ => .ok (.other sp0)) (fun e => e) [] = (.error (), []) := by
  refine ⟨(c9_expand_expr_shapes (fun _ => .error 7) (fun e => e) []).1 7 rfl, ?_⟩
  exact ((c9_expand_expr_shapes (fun _ => .ok (.other sp0)) (fun e => e) []).2
    (.other sp0) rfl).1 rfl

/-- C1 counterexample: the internal integer-literal token with payload
`-1` converts to a single client literal tree, but converting back yields
two internal tokens (a minus, then the literal `1`) — not an internal
token of the same kind with the same symbol. -/
theorem c1_counterexample :
    fromInternal ext0 (.token (.lit ⟨.integer, ['-', '1'], none⟩) sp0) .alone =
      some [.literal ⟨⟨.integer, ['-', '1'], none⟩, sp0⟩]
    ∧ roundTrip ext0 (.token (.lit ⟨.integer, ['-', '1'], none⟩) sp0) .alone =
      some [(.token (.binOp .minus) sp0, .alone),
            (.token (.lit ⟨.integer, ['1'], none⟩) sp0, .alone)]
    ∧ roundTrip ext0 (.token (.lit ⟨.integer, ['-', '1'], none⟩) sp0) .alone ≠
      some [(.token (.lit ⟨.integer, ['-', '1'], none⟩) sp0, .alone)] := by
  refine ⟨rfl, rfl, fun h => ?_⟩
  have h2 : (some [((ITree.token (.binOp .minus) sp0 : ITree), Spacing.alone),
      (.token (.lit ⟨.integer, ['1'], none⟩) sp0, .alone)] :
        Option TokenStream) =
      some [(.token (.lit ⟨.integer, ['-', '1'], none⟩) sp0, .alone)] :=
    (rfl : roundTrip ext0 (.token (.lit ⟨.integer, ['-', '1'], none⟩) sp0)
      .alone = _).symm.trans h
  simp at h2

/-- C1 as amended: for every internal token that converts to a single
client token-tree, internal→client→internal yields a token of the same
kind and textual meaning — a single-character punctuation token round
trips with the same character and spacing, an identifier (whose text is
already NFC-normalized and lexically valid, with raw eligibility when
flagged) round trips with the same symbol and raw flag, and a literal
round trips with the same kind, symbol and suffix provided its payload
does not begin with a minus sign while its kind is integer or float. -/
theorem c1_simple_round_trip (ext : Externals) (k : TokenKind) (name : Sym)
    (isRaw : Bool) (l : Lit) (span : Span) (spacing : Spacing) :
    (k ∈ singleCharOpKinds →
      roundTrip ext (.token k span) spacing = some [(.token k span, spacing)])
    ∧ (ext.nfc name = name → ext.identOk name = true →
        (isRaw = true → ext.canBeRaw name = true) →
        roundTrip ext (.token (.ident name isRaw) span) spacing =
          some [(.token (.ident name isRaw) span, .alone)])
    ∧ (¬ ((l.kind = .integer ∨ l.kind = .float) ∧ l.symbol.head? = some '-') →
        roundTrip ext (.token (.lit l) span) spacing =
          some [(.token (.lit l) span, .alone)]) := by
  refine ⟨fun hk => ?_, fun hnfc hid hraw => ?_, fun hlit => ?_⟩
  · fin_cases hk <;> cases spacing <;> rfl
  · by_cases hdc : name = dollarCrate ∧ isRaw = false
    · obtain ⟨h1, h2⟩ := hdc
      subst h1; subst h2
      rfl
    · have hnew : Ident.new ext name isRaw span = some ⟨name, isRaw, span⟩ := by
        have hcond : ¬ (isRaw = true ∧ ¬ ext.canBeRaw name = true) := by
          cases hR : isRaw with
          | false => simp
          | true => simp [hraw hR]
        simp only [Ident.new, hnfc, hid]
        simp only [Bool.not_eq_true] at hcond ⊢
        simp [hcond]
      simp [roundTrip, fromInternal, hdc, hnew, toInternal]
  · obtain ⟨kind, symbol, suffix⟩ := l
    simp only at hlit
    have h1 : ¬ (kind = .integer ∧ symbol.head? = some '-') :=
      fun ⟨ha, hb⟩ => hlit ⟨Or.inl ha, hb⟩
    have h2 : ¬ (kind = .float ∧ symbol.head? = some '-') :=
      fun ⟨ha, hb⟩ => hlit ⟨Or.inr ha, hb⟩
    simp [roundTrip, fromInternal, toInternal, h1, h2]

/-- Closed witness for C1 (amended): a joint `<` punct, the identifier
`foo`, and a string literal whose payload happens to begin with a minus
sign all round trip unchanged. -/
theorem c1_simple_round_trip_witness :
    roundTrip ext0 (.token .lt sp0) .joint = some [(.token .lt sp0, .joint)]
    ∧ roundTrip ext0 (.token (.ident ['f', 'o', 'o'] false) sp0) .alone =
        some [(.token (.ident ['f', 'o', 'o'] false) sp0, .alone)]
    ∧ roundTrip ext0 (.token (.lit ⟨.str, ['-', 'a'], none⟩) sp0) .alone =
        some [(.token (.lit ⟨.str, ['-', 'a'], none⟩) sp0, .alone)] := by
  have ha := c1_simple_round_trip ext0 .lt ['f', 'o', 'o'] false
    ⟨.str, ['-', 'a'], none⟩ sp0 .joint
  have hb := c1_simple_round_trip ext0 .lt ['f', 'o', 'o'] false
    ⟨.str, ['-', 'a'], none⟩ sp0 .alone
  exact ⟨ha.1 (by decide), hb.2.1 rfl rfl (fun hR => rfl), hb.2.2 (by decide)⟩

/-- C10: every client-constructed entity carries the ambient call-site
span and never the flatten flag — `Group::new` yields `flatten = false`
and the call-site span, every literal constructor and every successful
`Literal::from_str` yield the call-site span, and the only conversion that
can produce a flattened group is `from_internal` on a nonterminal token
for which the compatibility hack fires. -/
theorem c10_call_site_and_flatten (st : Facade) (d : CDelim)
    (os : Option TokenStream) (n ksuf s : Sym) (c : Char) (bs : List Nat) :
    (st.groupNew d os).flatten = false
    ∧ (st.groupNew d os).dspan = DelimSpan.fromSingle st.callSite
    ∧ (st.integer n).span = st.callSite
    ∧ (st.typedInteger n ksuf).span = st.callSite
    ∧ (st.float n).span = st.callSite
    ∧ (st.f32 n).span = st.callSite
    ∧ (st.f64 n).span = st.callSite
    ∧ (st.string s).span = st.callSite
    ∧ (st.character c).span = st.callSite
    ∧ (st.byteString bs).span = st.callSite
    ∧ (∀ src r, fromStr st.callSite src = some r → r.span = st.callSite)
    ∧ (∀ (ext : Externals) (tree : ITree) (spacing : Spacing)
          (ts : List CTree), fromInternal ext tree spacing = some ts →
        true ∈ groupFlattens ts →
        ∃ nt ispan, tree = .token (.interpolated nt) ispan ∧
          ext.ntHack nt = true) := by
  refine ⟨rfl, rfl, rfl, rfl, rfl, rfl, rfl, rfl, rfl, rfl,
          fun src r h => ?_, fun ext tree spacing ts hts hmem => ?_⟩
  · unfold fromStr at h
    cases hl : fromStrLit src with
    | none => rw [hl] at h; exact absurd h (by simp)
    | some l =>
      rw [hl] at h
      simp only [Option.map_some', Option.some.injEq] at h
      rw [← h]
  · cases tree with
    | delimited dsp dl tts =>
      simp only [fromInternal, Option.some.injEq] at hts
      subst hts
      simp [groupFlattens] at hmem
    | token kind span =>
      cases kind <;>
        try (simp only [fromInternal, op1, op2, op3, Option.some.injEq] at hts;
             subst hts; simp [groupFlattens] at hmem; done)
      case binOp b =>
        cases b <;>
          (simp only [fromInternal, op1, op2, Option.some.injEq] at hts;
           subst hts; simp [groupFlattens] at hmem)
      case binOpEq b =>
        cases b <;>
          (simp only [fromInternal, op2, op3, Option.some.injEq] at hts;
           subst hts; simp [groupFlattens] at hmem)
      case ident name isRaw =>
        simp only [fromInternal] at hts
        split at hts
        · simp only [Option.some.injEq] at hts
          subst hts
          simp [groupFlattens] at hmem
        · cases hn : Ident.new ext name isRaw span with
          | none => rw [hn] at hts; exact absurd hts (by simp)
          | some i =>
            rw [hn] at hts
            simp only [Option.map_some', Option.some.injEq] at hts
            subst hts
            simp [groupFlattens] at hmem
      case lifetime name =>
        simp only [fromInternal] at hts
        cases hn : Ident.new ext (name.dropWhile (· = '\'')) false span with
        | none => rw [hn] at hts; exact absurd hts (by simp)
        | some i =>
          rw [hn] at hts
          simp only [Option.map_some', Option.some.injEq] at hts
          subst hts
          simp [groupFlattens] at hmem
      case docComment ck style data =>
        simp only [fromInternal, Option.some.injEq] at hts
        subst hts
        cases style <;> simp [groupFlattens] at hmem
      case interpolated nt =>
        cases nt with
        | ntIdent nm ir isp =>
          simp only [fromInternal] at hts
          cases hn : Ident.new ext nm ir isp with
          | none => rw [hn] at hts; exact absurd hts (by simp)
          | some i =>
            rw [hn] at hts
            simp only [Option.map_some', Option.some.injEq] at hts
            subst hts
            simp [groupFlattens] at hmem
        | ntOther tag =>
          simp only [fromInternal, Option.some.injEq] at hts
          subst hts
          simp only [groupFlattens, List.filterMap_cons, List.filterMap_nil,
            List.mem_singleton] at hmem
          exact ⟨.ntOther tag, span, rfl, hmem.symm⟩

/-- Closed witness for C10: a concrete group and literal from the facade,
and a concrete successful `from_str`, all carry the call-site span. -/
theorem c10_call_site_and_flatten_witness :
    (st0.groupNew .brace none).flatten = false
    ∧ (st0.integer ['1']).span = st0.callSite
    ∧ (⟨⟨.integer, ['1'], none⟩, st0.callSite⟩ : Literal).span = st0.callSite := by
  have h := c10_call_site_and_flatten st0 .brace none ['1'] ['u', '8'] ['a'] 'a' [65]
  exact ⟨h.1, h.2.2.1,
    h.2.2.2.2.2.2.2.2.2.2.1 ['1'] ⟨⟨.integer, ['1'], none⟩, st0.callSite⟩ (by decide)⟩

/-! ### Positional soundness of the modelled lexer -/

/-- `scanNumber` decomposes its input into the literal's symbol, a suffix
part and the remainder, and reports the consumed count. -/
theorem scanNumber_spec (c : Char) (cs : List Char) :
    ∃ suf, c :: cs = (scanNumber c cs).1.symbol ++ suf ++ (scanNumber c cs).2.1 ∧
      (scanNumber c cs).2.2 = (scanNumber c cs).1.symbol.length + suf.length ∧
      ((scanNumber c cs).1.kind = .integer ∨ (scanNumber c cs).1.kind = .float) := by
  simp only [scanNumber]
  split
  next d rest2 heq =>
    split
    next hd =>
      refine ⟨(d :: rest2).dropWhile Char.isDigit |>.takeWhile isSuffixChar,
        ?_, rfl, Or.inr rfl⟩
      conv_lhs =>
        rw [← List.takeWhile_append_dropWhile (p := Char.isDigit) (l := cs), heq]
      conv_lhs =>
        rw [← List.takeWhile_append_dropWhile (p := Char.isDigit) (l := d :: rest2)]
      conv_lhs =>
        rw [← List.takeWhile_append_dropWhile (p := isSuffixChar)
          (l := (d :: rest2).dropWhile Char.isDigit)]
      simp
    next hd =>
      refine ⟨cs.dropWhile Char.isDigit |>.takeWhile isSuffixChar, ?_, rfl, Or.inl rfl⟩
      conv_lhs =>
        rw [← List.takeWhile_append_dropWhile (p := Char.isDigit) (l := cs)]
      conv_lhs =>
        rw [← List.takeWhile_append_dropWhile (p := isSuffixChar)
          (l := cs.dropWhile Char.isDigit)]
      simp
  next heq =>
    refine ⟨cs.dropWhile Char.isDigit |>.takeWhile isSuffixChar, ?_, rfl, Or.inl rfl⟩
    conv_lhs =>
      rw [← List.takeWhile_append_dropWhile (p := Char.isDigit) (l := cs)]
    conv_lhs =>
      rw [← List.takeWhile_append_dropWhile (p := isSuffixChar)
        (l := cs.dropWhile Char.isDigit)]
    simp

/-- `dropComment` consumes an initial segment of its input. -/
theorem dropComment_spec : ∀ (f : Nat) (cs r : List Char) (n : Nat),
    dropComment f cs = some (r, n) → r = cs.drop n ∧ n ≤ cs.length := by
  intro f
  induction f with
  | zero => intro cs r n h; simp [dropComment] at h
  | succ f ih =>
    intro cs r n h
    rw [dropComment.eq_def] at h
    split at h
    · exact absurd h (by simp)
    · simp only [Option.some.injEq, Prod.mk.injEq] at h
      obtain ⟨rfl, rfl⟩ := h
      exact ⟨rfl, by simp⟩
    · rename_i fuel ch tail hnm hfe
      obtain rfl : fuel = f := (Nat.succ.inj hfe).symm
      cases hd : dropComment fuel tail with
      | none => rw [hd] at h; exact absurd h (by simp)
      | some p =>
        rw [hd] at h
        obtain ⟨r', n'⟩ := p
        obtain ⟨hspec1, hspec2⟩ := ih tail r' n' hd
        simp only [Option.map_some', Option.some.injEq, Prod.mk.injEq] at h
        obtain ⟨rfl, rfl⟩ := h
        refine ⟨hspec1, ?_⟩
        simp only [List.length_cons]
        omega
    · exact absurd h (by simp)

/-- `scanString` consumes an initial segment of its input: the remainder
starts after the content and the closing quote. -/
theorem scanString_spec : ∀ (f : Nat) (cs content r : List Char) (n : Nat),
    scanString f cs = some (content, r, n) →
      r = cs.drop (n + 1) ∧ n + 1 ≤ cs.length := by
  intro f
  induction f with
  | zero => intro cs content r n h; simp [scanString] at h
  | succ f ih =>
    intro cs content r n h
    rw [scanString.eq_def] at h
    split at h
    · exact absurd h (by simp)
    · simp only [Option.some.injEq, Prod.mk.injEq] at h
      obtain ⟨rfl, rfl, rfl⟩ := h
      exact ⟨rfl, by simp⟩
    · rename_i fuel ch tail hnm hfe
      obtain rfl : fuel = f := (Nat.succ.inj hfe).symm
      cases hd : scanString fuel tail with
      | none => rw [hd] at h; exact absurd h (by simp)
      | some p =>
        rw [hd] at h
        obtain ⟨content', r', n'⟩ := p
        obtain ⟨hspec1, hspec2⟩ := ih tail content' r' n' hd
        simp only [Option.map_some', Option.some.injEq, Prod.mk.injEq] at h
        obtain ⟨rfl, rfl, rfl⟩ := h
        refine ⟨hspec1, ?_⟩
        simp only [List.length_cons]
        omega
    · exact absurd h (by simp)

/-- Transport the token-soundness facts across a prefix of consumed
characters: a token sound for the suffix `l.drop k` at cursor `pos + k`
is sound for `l` at cursor `pos`. -/
theorem tokSound_shift (l rest : List Char) (k pos posk : Nat) (t : Spanned)
    (hrest : rest = l.drop k) (hpos : posk = pos + k) (hk : k ≤ l.length)
    (h : TokSound rest posk t) : TokSound l pos t := by
  subst hrest hpos
  obtain ⟨h1, h2, h3, h4, h5⟩ := h
  have hle : pos ≤ t.lo := by omega
  have hdrop : l.drop (t.lo - pos) = (l.drop k).drop (t.lo - (pos + k)) := by
    rw [List.drop_drop]
    congr 1
    omega
  refine ⟨hle, h2, ?_, ?_, ?_⟩
  · have hl := List.length_drop k l
    omega
  · intro hm
    obtain ⟨ha, hb⟩ := h4 hm
    exact ⟨ha, by rw [hdrop]; exact hb⟩
  · intro l' hm hnum
    obtain ⟨r, hr⟩ := h5 l' hm hnum
    exact ⟨r, by rw [hdrop]; exact hr⟩

/-- Token soundness of a one-character `other` token at the cursor. -/
theorem tokSound_other_head (cs : List Char) (pos : Nat) (h1 : 1 ≤ cs.length) :
    TokSound cs pos ⟨.other, pos, pos + 1⟩ :=
  ⟨le_refl _, by dsimp only; omega, by dsimp only; omega,
   fun hm => by simp at hm, fun l' hl' => by simp at hl'⟩

/-- Every token emitted by the fuel-driven lexer is positionally sound. -/
theorem lexFuel_sound : ∀ (f : Nat) (cs : List Char) (pos : Nat) (t : Spanned),
    t ∈ lexFuel f cs pos → TokSound cs pos t := by
  intro f
  induction f with
  | zero => intro cs pos t ht; simp [lexFuel] at ht
  | succ f ih =>
    intro cs pos t ht
    cases cs with
    | nil => simp [lexFuel] at ht
    | cons c cs =>
      simp only [lexFuel] at ht
      split at ht
      · -- whitespace: skip one character
        exact tokSound_shift (c :: cs) cs 1 pos (pos + 1) t rfl rfl (by simp)
          (ih cs (pos + 1) t ht)
      · split at ht
        · -- c = '/'
          split at ht
          · -- cs = '*' :: cs2: block comment
            rename_i hws hsl cs2
            split at ht
            · rename_i rest n hdc
              obtain ⟨hr, hn⟩ := dropComment_spec f cs2 rest n hdc
              refine tokSound_shift (c :: '*' :: cs2) rest (n + 2) pos
                (pos + 2 + n) t hr (by omega) ?_ (ih rest (pos + 2 + n) t ht)
              simp only [List.length_cons]
              omega
            · simp at ht
          · -- '/' not starting a comment: an `other` token
            rcases List.mem_cons.mp ht with rfl | hmem
            · exact tokSound_other_head _ pos (by simp)
            · exact tokSound_shift (c :: cs) cs 1 pos (pos + 1) t rfl rfl
                (by simp) (ih cs (pos + 1) t hmem)
        · split at ht
          · -- c = '-': a minus token
            rename_i hws hsl hminus
            rcases List.mem_cons.mp ht with rfl | hmem
            · refine ⟨le_refl _, by dsimp only; omega,
                by dsimp only; simp only [List.length_cons]; omega,
                fun _ => ⟨rfl, ?_⟩, fun l' hl' => by simp at hl'⟩
              rw [Nat.sub_self]
              simp [hminus]
            · exact tokSound_shift (c :: cs) cs 1 pos (pos + 1) t rfl rfl
                (by simp) (ih cs (pos + 1) t hmem)
          · split at ht
            · -- a numeric literal
              rename_i hws hsl hminus hdig
              obtain ⟨suf, hdecomp, hcount, hkind⟩ := scanNumber_spec c cs
              have hlen := congrArg List.length hdecomp
              simp only [List.length_cons, List.length_append] at hlen
              rcases List.mem_cons.mp ht with rfl | hmem
              · refine ⟨le_refl _, by dsimp only; omega,
                  by dsimp only; simp only [List.length_cons]; omega,
                  fun hm => by simp at hm, fun l' hl' hnum => ?_⟩
                simp only [PTok.lit.injEq] at hl'
                subst hl'
                refine ⟨suf ++ (scanNumber c cs).2.1, ?_⟩
                rw [Nat.sub_self, List.drop_zero, hdecomp]
                simp [List.append_assoc]
              · refine tokSound_shift (c :: cs) (scanNumber c cs).2.1
                  (scanNumber c cs).2.2 pos (pos + (scanNumber c cs).2.2) t ?_
                  rfl (by simp only [List.length_cons]; omega)
                  (ih (scanNumber c cs).2.1 (pos + (scanNumber c cs).2.2) t hmem)
                rw [hcount, hdecomp]
                rw [show (scanNumber c cs).1.symbol.length + suf.length =
                  ((scanNumber c cs).1.symbol ++ suf).length from
                  (List.length_append ..).symm]
                rw [List.drop_left]
            · split at ht
              · -- c = '\''
                split at ht
                · -- a character literal
                  rename_i hws hsl hminus hdig hq c2 cs2
                  rcases List.mem_cons.mp ht with rfl | hmem
                  · refine ⟨le_refl _, by dsimp only; omega,
                      by dsimp only; simp only [List.length_cons]; omega,
                      fun hm => by simp at hm, fun l' hl' hnum => ?_⟩
                    simp only [PTok.lit.injEq] at hl'
                    subst hl'
                    simp at hnum
                  · exact tokSound_shift (c :: c2 :: '\'' :: cs2) cs2 3 pos
                      (pos + 3) t rfl rfl (by simp) (ih cs2 (pos + 3) t hmem)
                · -- a lone quote: an `other` token
                  rcases List.mem_cons.mp ht with rfl | hmem
                  · exact tokSound_other_head _ pos (by simp)
                  · exact tokSound_shift (c :: cs) cs 1 pos (pos + 1) t rfl rfl
                      (by simp) (ih cs (pos + 1) t hmem)
              · split at ht
                · -- c = '"': a string literal
                  split at ht
                  · rename_i hws hsl hminus hdig hq hdq content rest n hss
                    obtain ⟨hr, hn⟩ := scanString_spec f cs content rest n hss
                    rcases List.mem_cons.mp ht with rfl | hmem
                    · refine ⟨le_refl _, by dsimp only; omega,
                        by dsimp only; simp only [List.length_cons]; omega,
                        fun hm => by simp at hm, fun l' hl' hnum => ?_⟩
                      simp only [PTok.lit.injEq] at hl'
                      subst hl'
                      simp at hnum
                    · exact tokSound_shift (c :: cs) rest (n + 2) pos
                        (pos + 2 + n) t hr (by omega)
                        (by simp only [List.length_cons]; omega)
                        (ih rest (pos + 2 + n) t hmem)
                  · simp at ht
                · -- any other character: an `other` token
                  rcases List.mem_cons.mp ht with rfl | hmem
                  · exact tokSound_other_head _ pos (by simp)
                  · exact tokSound_shift (c :: cs) cs 1 pos (pos + 1) t rfl rfl
                      (by simp) (ih cs (pos + 1) t hmem)

/-- Every token of `lex` is positionally sound for the input. -/
theorem lex_sound (s : List Char) (t : Spanned) (ht : t ∈ lex s) :
    TokSound s 0 t :=
  lexFuel_sound (s.length + 1) s 0 t ht

/-- C3: literal parsing fails exactly when the input is not a single
literal covering the whole input — `1 ` (trailing space), `/*c*/1`
(leading comment) and `1 1` (extra token) fail; `1`, `-1` and `-1.5`
succeed; a minus is rejected on non-numeric kinds (`-'a'`, `-"s"`); and
on success with a minus present the payload is `"-"` prepended to the
original literal's payload. -/
theorem c3_literal_parse_strictness (cs : Span) :
    fromStr cs ['1', ' '] = none
    ∧ fromStr cs ['/', '*', 'c', '*', '/', '1'] = none
    ∧ fromStr cs ['1', ' ', '1'] = none
    ∧ fromStr cs ['1'] = some ⟨⟨.integer, ['1'], none⟩, cs⟩
    ∧ fromStr cs ['-', '1'] = some ⟨⟨.integer, ['-', '1'], none⟩, cs⟩
    ∧ fromStr cs ['-', '1', '.', '5'] =
        some ⟨⟨.float, ['-', '1', '.', '5'], none⟩, cs⟩
    ∧ fromStr cs ['-', '\'', 'a', '\''] = none
    ∧ fromStr cs ['-', '"', 's', '"'] = none
    ∧ (∀ (s : List Char) (t1 t2 : Spanned) (rest : List Spanned) (l : Lit)
          (r : Literal), lex s = t1 :: t2 :: rest → t1.tok = .minus →
        t2.tok = .lit l → fromStr cs s = some r →
        r.lit.symbol = '-' :: l.symbol) := by
  refine ⟨rfl, rfl, rfl, rfl, rfl, rfl, rfl, rfl,
    fun s t1 t2 rest l r hlex hm1 hm2 hfs => ?_⟩
  -- extract the parsed literal from the `map`
  unfold fromStr at hfs
  cases hfl : fromStrLit s with
  | none => rw [hfl] at hfs; exact absurd hfs (by simp)
  | some l0 =>
    rw [hfl] at hfs
    simp only [Option.map_some', Option.some.injEq] at hfs
    subst hfs
    -- positional soundness of the two tokens
    have hs1 : TokSound s 0 t1 := lex_sound s t1 (by rw [hlex]; simp)
    have hs2 : TokSound s 0 t2 := lex_sound s t2 (by rw [hlex]; simp)
    obtain ⟨tok1, lo1, hi1⟩ := t1
    obtain ⟨tok2, lo2, hi2⟩ := t2
    simp only at hm1 hm2
    subst hm1; subst hm2
    obtain ⟨-, hle1, hhi1, hminus, -⟩ := hs1
    obtain ⟨-, hle2, hhi2, -, hlit⟩ := hs2
    obtain ⟨hw1, hhead⟩ := hminus rfl
    simp only [Nat.sub_zero] at hhead hlit hhi1 hhi2
    -- reduce `fromStrLit` along the lexed shape
    unfold fromStrLit at hfl
    rw [hlex] at hfl
    simp only [reduceIte] at hfl
    split at hfl
    · exact absurd hfl (by simp)
    · split at hfl
      · exact absurd hfl (by simp)
      · -- both span checks passed
        rename_i hcover hadj
        simp only [ne_eq, Decidable.not_not] at hcover hadj
        dsimp only at hcover hadj hle1 hle2 hhi1 hhi2 hw1
        -- the first token starts at 0 and the input starts with '-'
        have hlen0 : s.length ≠ 0 := by
          intro h0
          have : s = [] := List.length_eq_zero.mp h0
          subst this
          simp [lex, lexFuel] at hlex
        have hlo1 : lo1 = 0 := by omega
        subst hlo1
        rw [List.drop_zero] at hhead
        obtain ⟨s', rfl⟩ : ∃ s', s = '-' :: s' := by
          cases s with
          | nil => simp at hhead
          | cons a s' => simp only [List.head?_cons, Option.some.injEq] at hhead; subst hhead; exact ⟨s', rfl⟩
        -- the literal token starts right after the minus
        have hlo2 : lo2 = 1 := by omega
        -- conclude per numeric kind
        split at hfl
        · rename_i hkind
          obtain ⟨rr, hrr⟩ := hlit l rfl (Or.inl hkind)
          rw [hlo2] at hrr
          simp only [List.drop_succ_cons, List.drop_zero] at hrr
          simp only [Option.some.injEq] at hfl
          subst hfl
          simp only [Nat.add_comm 1 l.symbol.length, List.take_succ_cons, hrr]
          rw [List.take_left]
        · rename_i hkind
          obtain ⟨rr, hrr⟩ := hlit l rfl (Or.inr hkind)
          rw [hlo2] at hrr
          simp only [List.drop_succ_cons, List.drop_zero] at hrr
          simp only [Option.some.injEq] at hfl
          subst hfl
          simp only [Nat.add_comm 1 l.symbol.length, List.take_succ_cons, hrr]
          rw [List.take_left]
        · exact absurd hfl (by simp)

/-- Closed witness for C3: parsing `-1` succeeds and folds the minus into
the payload of the lexed literal `1`. -/
theorem c3_literal_parse_strictness_witness :
    fromStr sp0 ['-', '1'] = some ⟨⟨.integer, ['-', '1'], none⟩, sp0⟩
    ∧ (⟨⟨.integer, ['-', '1'], none⟩, sp0⟩ : Literal).lit.symbol =
        '-' :: (⟨.integer, ['1'], none⟩ : Lit).symbol := by
  have h := c3_literal_parse_strictness sp0
  refine ⟨h.2.2.2.2.1, ?_⟩
  exact h.2.2.2.2.2.2.2.2 ['-', '1'] ⟨.minus, 0, 1⟩
    ⟨.lit ⟨.integer, ['1'], none⟩, 1, 2⟩ [] ⟨.integer, ['1'], none⟩
    ⟨⟨.integer, ['-', '1'], none⟩, sp0⟩ (by decide) rfl rfl h.2.2.2.2.1

end PMS
